import Mathlib

/-!
Shallow embedding of the GitHub-activity aggregation/caching pipeline of the
admin-dashboard repository (src/js/data-store.js, src/js/analytics.js,
src/js/utils.js and the dashboard module), together with theorems settling
the frozen claims about it.

Modelling conventions:
* JS `undefined`/`null` field values are `Option.none`; a JS object field that
  is always present is a plain Lean field.
* JS string falsiness (`s || d` falls through on `""`) is `jsOrS`.
* JS number falsiness (`n || d` falls through on `0`) is `jsOrI` / `Option.getD`.
* `localStorage` holds structured values directly: `JSON.stringify`/`JSON.parse`
  round-trips are modelled as the identity on well-formed data.
* Network I/O is an oracle parameter: `none` models a thrown fetch / JSON error,
  `some r` a delivered response.  Awaited delays advance an explicit clock.
* `Array.prototype.sort` with a consistent comparator is (per ES2019) a stable
  sort; it is modelled by the stable insertion sort `jsSortBy`.
-/

/-- JS `a || d` for an optional string: `undefined`, `null` and `""` are falsy. -/
def jsOrS (a : Option String) (d : String) : String :=
  match a with
  | some s => if s = "" then d else s
  | none => d

/-- JS `a || d` for an optional integer: `undefined`, `null` and `0` are falsy. -/
def jsOrI (a : Option Int) (d : Int) : Int :=
  match a with
  | some v => if v = 0 then d else v
  | none => d

/-- JS `String.prototype.trim()`: strip leading and trailing whitespace.
Defined structurally over the character list so that it evaluates by kernel
reduction (`String.trim` is defined via well-founded `Substring` loops and
does not). -/
def jsTrim (s : String) : String :=
  String.mk (((s.data.dropWhile Char.isWhitespace).reverse.dropWhile
    Char.isWhitespace).reverse)

/-- Stable insertion step: place `a` before the first element `b` with `le a b`.
With a total preorder `le`, inserting the originally-earlier element first
reproduces the ES2019 stable-sort ordering. -/
def jsInsert (le : α → α → Bool) (a : α) : List α → List α
  | [] => [a]
  | b :: l => if le a b then a :: b :: l else b :: jsInsert le a l

/-- Stable sort modelling `Array.prototype.sort` with comparator-induced order `le`
(`le a b` = "comparator(a,b) ≤ 0", i.e. `a` may come before `b`). -/
def jsSortBy (le : α → α → Bool) : List α → List α
  | [] => []
  | a :: l => jsInsert le a (jsSortBy le l)

/-- JS `Math.max(...)` over a list (the source only applies it to nonempty lists). -/
def listMax : List Int → Int
  | [] => 0
  | x :: xs => xs.foldl max x

/-- JS object used as a counter map (`obj[k] = (obj[k] || 0) + v`): an assoc
list in insertion order; updating an existing key keeps its position. -/
def objInc (m : List (String × Int)) (k : String) (v : Int) : List (String × Int) :=
  match m with
  | [] => [(k, v)]
  | (k0, v0) :: rest => if k0 = k then (k0, v0 + v) :: rest else (k0, v0) :: objInc rest k v

/-- One `recentPRs` entry; only its `created_at` timestamp (ms since epoch) is read. -/
structure PRRecord where
  created_at : Int
deriving DecidableEq

/-- A member's language data: either a name→count mapping (a JS object, kept in
insertion order) or a list of entries that are strings, `{name, count?, value?}`
objects, or other values (ignored by the code). -/
inductive LangEntry where
  | str (s : String)
  | named (name : String) (count : Option Int) (value : Option Int)
  | other
deriving DecidableEq

inductive Languages where
  | map (entries : List (String × Int))
  | arr (entries : List LangEntry)
deriving DecidableEq

/-- Whether the language data is in the name→count mapping form. -/
def Languages.isMap : Languages → Bool
  | .map _ => true
  | .arr _ => false

/-- The Activity Snapshot embedded in a member record (`member.githubActivity`). -/
structure GithubActivity where
  publicRepos : Option Nat
  privateRepos : Option Nat
  totalStars : Option Nat
  totalForks : Option Nat
  pullRequests : Option Nat
  mergedPRs : Option Nat
  openPRs : Option Nat
  closedPRs : Option Nat
  commits : Option Nat
  issues : Option Nat
  contributions : Option Nat
  recentPRs : Option (List PRRecord)
  languages : Option Languages
deriving DecidableEq

/-- A member record as read from the document store. -/
structure Member where
  id : String
  displayName : Option String
  firstName : Option String
  lastName : Option String
  githubConnected : Bool
  githubUsername : Option String
  githubActivity : Option GithubActivity
deriving DecidableEq

/-- An activity snapshot with every field absent (used to build small inputs). -/
def emptyActivity : GithubActivity :=
  { publicRepos := none, privateRepos := none, totalStars := none, totalForks := none
    pullRequests := none, mergedPRs := none, openPRs := none, closedPRs := none
    commits := none, issues := none, contributions := none
    recentPRs := none, languages := none }

/-- A member record with every optional field absent. -/
def emptyMember : Member :=
  { id := "", displayName := none, firstName := none, lastName := none
    githubConnected := false, githubUsername := none, githubActivity := none }

/-! ## data-store.js: in-memory + persistent cache -/

/-- The two fixed `localStorage` keys (`members_cache`, `members_cache_timestamp`).
Values are stored structurally: serialization is modelled as the identity. -/
structure Storage where
  cacheKey : Option (List Member)
  timestampKey : Option Nat
deriving DecidableEq

/-- Module state of data-store.js: the persisted keys plus the in-memory
`members` array and `lastFetchTime`. -/
structure StoreState where
  storage : Storage
  members : List Member
  lastFetchTime : Nat
deriving DecidableEq

def initialStoreState : StoreState :=
  { storage := { cacheKey := none, timestampKey := none }, members := [], lastFetchTime := 0 }

/-- `loadFromCache()`: returns the cached collection (updating the in-memory
copy) when both keys are present, else `null`. -/
def loadFromCache (st : StoreState) : Option (List Member) × StoreState :=
  match st.storage.cacheKey, st.storage.timestampKey with
  | some cachedData, some cachedTimestamp =>
    (some cachedData, { st with members := cachedData, lastFetchTime := cachedTimestamp })
  | some _, none => (none, st)
  | none, _ => (none, st)

/-- `saveToCache(membersData)`: writes both keys and `lastFetchTime`; on a
storage failure (`saveFails`), the catch handler removes both keys and the
failure is only logged — the in-memory state is left as it is. -/
def saveToCache (saveFails : Bool) (now : Nat) (membersData : List Member)
    (st : StoreState) : StoreState :=
  if saveFails then
    { st with storage := { cacheKey := none, timestampKey := none } }
  else
    { st with storage := { cacheKey := some membersData, timestampKey := some now }
              lastFetchTime := now }

/-- `clearMembersCache()`: removes both persisted keys. -/
def clearMembersCache (st : StoreState) : StoreState :=
  { st with storage := { cacheKey := none, timestampKey := none } }

/-- The Firebase branch of `loadMembersData`: `getDocs` either yields the full
collection (`some docs`) or throws (`none`); on failure any existing cache is
used, else the empty collection. -/
def fetchMembersFromFirebase (queryResult : Option (List Member)) (saveFails : Bool)
    (now : Nat) (st : StoreState) : List Member × StoreState :=
  match queryResult with
  | some docs =>
    let st1 := { st with members := docs }
    let st2 := saveToCache saveFails now docs st1
    (docs, st2)
  | none =>
    match loadFromCache st with
    | (some cached, st1) => (cached, st1)
    | (none, st1) => ([], { st1 with members := [] })

/-- `loadMembersData(skipCache)`. The boolean in the result records whether the
document-store query path (the `getDocs` call) was invoked. -/
def loadMembersData (skipCache : Bool) (queryResult : Option (List Member))
    (saveFails : Bool) (now : Nat) (st : StoreState) : List Member × StoreState × Bool :=
  if !skipCache then
    match loadFromCache st with
    | (some cached, st1) => (cached, st1, false)
    | (none, st1) =>
      let (r, st2) := fetchMembersFromFirebase queryResult saveFails now st1
      (r, st2, true)
  else
    let (r, st2) := fetchMembersFromFirebase queryResult saveFails now st
    (r, st2, true)

/-- `getMembers()`: the in-memory collection, no I/O. -/
def getMembers (st : StoreState) : List Member := st.members

/-- `setMembers(newMembers)`: replaces the in-memory copy and persists it. -/
def setMembers (saveFails : Bool) (now : Nat) (newMembers : List Member)
    (st : StoreState) : StoreState :=
  saveToCache saveFails now newMembers { st with members := newMembers }

/-- `isCacheFresh()`: both persisted keys exist (no expiration). -/
def isCacheFresh (st : StoreState) : Bool :=
  st.storage.cacheKey.isSome && st.storage.timestampKey.isSome

/-! ## analytics.js: aggregation functions -/

/-- The name-resolution fallback chain used by the rankings:
`member.displayName || `${firstName} ${lastName}`.trim() || "Unknown"`. -/
def memberName (m : Member) : String :=
  jsOrS m.displayName
    (jsOrS (some (jsTrim (jsOrS m.firstName "" ++ " " ++ jsOrS m.lastName ""))) "Unknown")

structure CommitterEntry where
  name : String
  commits : Nat
  contributions : Nat
deriving DecidableEq

/-- `getTopCommitters(members)`: filter to members with a defined `commits`,
map to name/commits pairs, sort descending by commits (stable), take 10. -/
def getTopCommitters (members : List Member) : List CommitterEntry :=
  ((members.filter (fun member =>
      match member.githubActivity with
      | some a => a.commits.isSome
      | none => false)).map (fun member =>
      { name := memberName member
        commits := (match member.githubActivity with
          | some a => a.commits.getD 0
          | none => 0)
        contributions := (match member.githubActivity with
          | some a => a.contributions.getD 0
          | none => 0) } )
    |> jsSortBy (fun a b => b.commits ≤ a.commits)).take 10

structure PRCreatorEntry where
  name : String
  prs : Nat
  merged : Nat
  openPRs : Nat
  closedPRs : Nat
deriving DecidableEq

/-- `getTopPRCreators(members)`: filter to members whose activity has a truthy
`pullRequests || mergedPRs || openPRs`, map to name/counts, sort descending
by `prs` (stable), take 10. -/
def getTopPRCreators (members : List Member) : List PRCreatorEntry :=
  ((members.filter (fun member =>
      match member.githubActivity with
      | some a => a.pullRequests.getD 0 ≠ 0 || a.mergedPRs.getD 0 ≠ 0 || a.openPRs.getD 0 ≠ 0
      | none => false)).map (fun member =>
      { name := memberName member
        prs := (match member.githubActivity with
          | some a => a.pullRequests.getD 0
          | none => 0)
        merged := (match member.githubActivity with
          | some a => a.mergedPRs.getD 0
          | none => 0)
        openPRs := (match member.githubActivity with
          | some a => a.openPRs.getD 0
          | none => 0)
        closedPRs := (match member.githubActivity with
          | some a => a.closedPRs.getD 0
          | none => 0) } )
    |> jsSortBy (fun a b => b.prs ≤ a.prs)).take 10

/-- Merge one member's language data into the global counter map, as in
`getLanguageData`'s forEach.  The mapping form excludes `""`, `"Unknown"`,
`"null"` and non-positive counts; the array form excludes only `""` and
`"Unknown"` (string entries count 1; named entries use
`Number(lang.count || lang.value || 1) || 1` and require positivity). -/
def mergeMemberLanguages (acc : List (String × Int)) (languages : Languages) :
    List (String × Int) :=
  match languages with
  | .map entries =>
    entries.foldl (fun a p =>
      let langName := jsTrim p.1
      let langCount := p.2
      if langName ≠ "" ∧ langCount > 0 ∧ langName ≠ "Unknown" ∧ langName ≠ "null" then
        objInc a langName langCount
      else a) acc
  | .arr entries =>
    entries.foldl (fun a e =>
      match e with
      | .str s =>
        let langName := jsTrim s
        if langName ≠ "" ∧ langName ≠ "Unknown" then objInc a langName 1 else a
      | .named name count value =>
        if name ≠ "" then
          let langName := jsTrim name
          let langCount := jsOrI (some (jsOrI count (jsOrI value 1))) 1
          if langName ≠ "" ∧ langName ≠ "Unknown" ∧ langCount > 0 then
            objInc a langName langCount
          else a
        else a
      | .other => a) acc

structure LanguageData where
  labels : List String
  dataVals : List Int
  isBytes : Bool
deriving DecidableEq

def noLanguageData : LanguageData :=
  { labels := ["No Language Data"], dataVals := [1], isBytes := false }

/-- The `languageCounts` accumulator of `getLanguageData` after the forEach
over all members. -/
def languageCountsOf (members : List Member) : List (String × Int) :=
  members.foldl (fun acc member =>
    match member.githubActivity with
    | some activity =>
      match activity.languages with
      | some languages => mergeMemberLanguages acc languages
      | none => acc
    | none => acc) []

/-- The `hasLanguageData` flag of `getLanguageData`: some member has a truthy
`githubActivity.languages`. -/
def hasLanguageDataOf (members : List Member) : Bool :=
  members.any (fun member =>
    match member.githubActivity with
    | some a => a.languages.isSome
    | none => false)

/-- `getLanguageData(members)`: merge all members' language data, sort the
counter map descending by count (stable), keep the top 15, drop empty/Unknown
labels, and classify as byte-valued when the maximum retained value
exceeds 10,000. -/
def getLanguageData (members : List Member) : LanguageData :=
  let languageCounts := languageCountsOf members
  let hasLanguageData := hasLanguageDataOf members
  if !hasLanguageData ∨ languageCounts = [] then noLanguageData
  else
    let sortedLanguages := ((jsSortBy (fun a b => b.2 ≤ a.2) languageCounts).take 15).filter
      (fun p => decide (p.1 ≠ "" ∧ jsTrim p.1 ≠ "" ∧ jsTrim p.1 ≠ "Unknown"))
    if sortedLanguages = [] then noLanguageData
    else
      let maxValue := listMax (sortedLanguages.map (·.2))
      { labels := sortedLanguages.map (·.1)
        dataVals := sortedLanguages.map (·.2)
        isBytes := maxValue > 10000 }

/-! ## dashboard module: PR trend buckets -/

/-- `m.githubActivity?.recentPRs || []`. -/
def recentOf (m : Member) : List PRRecord :=
  match m.githubActivity with
  | some a => a.recentPRs.getD []
  | none => []

/-- `m.githubActivity?.pullRequests || 0`. -/
def prCountOf (m : Member) : Nat :=
  match m.githubActivity with
  | some a => a.pullRequests.getD 0
  | none => 0

/-- Place one PR's `created_at` into the first day bucket whose
`[dayStart i, dayStart i + 24h)` window contains it (the inner for/break). -/
def placePR (dayStart : Nat → Int) (created : Int) : Nat → List Nat → List Nat
  | _, [] => []
  | i, b :: rest =>
    let start := dayStart i
    if start ≤ created ∧ created < start + 86400000 then (b + 1) :: rest
    else b :: placePR dayStart created (i + 1) rest

/-- The fallback fill loop: `buckets[i] = base + (rem > 0 ? 1 : 0); if (rem > 0) rem--`. -/
def fallbackFill (base : Nat) : Nat → Nat → List Nat
  | _, 0 => []
  | rem, d + 1 => (base + if rem > 0 then 1 else 0) :: fallbackFill base (rem - 1) d

/-- `getPRTrendsData(members, days)`.  `dayStart i` abstracts the local-calendar
midnight (ms since epoch) of the i-th day of the window computed by the source
from `new Date()`; day windows are `[dayStart i, dayStart i + 86400000)`. -/
def getPRTrendsData (dayStart : Nat → Int) (members : List Member) (days : Nat) :
    List Nat :=
  let buckets0 := List.replicate days 0
  let buckets := members.foldl (fun bs m =>
    (recentOf m).foldl (fun bs2 pr => placePR dayStart pr.created_at 0 bs2) bs) buckets0
  let hasTimestamps := members.any (fun m => (recentOf m).length ≠ 0)
  if hasTimestamps then buckets
  else
    let totalPRs := members.foldl (fun s m => s + prCountOf m) 0
    let base := totalPRs / days
    fallbackFill base (totalPRs - base * days) days

/-! ## utils.js: HTTP client wrapper and remote data fetchers -/

/-- Raw user-profile JSON body (the fields `fetchGitHubUserInfo` reads). -/
structure UserData where
  login : String
  name : Option String
  avatar_url : String
  html_url : String
  public_repos : Nat
  followers : Nat
  following : Nat
  bio : Option String
  location : Option String
  blog : Option String
  company : Option String
deriving DecidableEq

/-- Raw repository JSON item (the fields `fetchUserRepositories` reads). -/
structure RepoItem where
  rid : Nat
  name : String
  full_name : String
  description : Option String
  html_url : String
  language : Option String
  stargazers_count : Option Nat
  forks_count : Option Nat
  open_issues_count : Option Nat
  isPrivate : Bool
  created_at : Int
  updated_at : Int
  pushed_at : Int
  default_branch : String
deriving DecidableEq

/-- Raw commit JSON item (the fields `fetchRecentCommits` reads). -/
structure CommitData where
  sha : String
  message : String
  authorName : String
  authorDate : Int
  html_url : String
deriving DecidableEq

/-- An HTTP response: status, the two rate-limit headers (already parsed;
`none` = header absent), the `Link` header (`none` = absent, `some b` =
present with `b` = contains `rel="next"`), and the JSON body in the shape
the respective caller parses it as (`none` = `response.json()` would throw). -/
structure Resp where
  status : Nat
  remaining : Option Nat
  reset : Option Nat
  linkNext : Option Bool
  userBody : Option UserData
  repoBody : Option (List RepoItem)
  langBody : Option (List (String × Int))
  commitBody : Option (List CommitData)
deriving DecidableEq

/-- A response carrying only a status (all headers absent, no parseable body). -/
def statusResp (s : Nat) : Resp :=
  { status := s, remaining := none, reset := none, linkNext := none
    userBody := none, repoBody := none, langBody := none, commitBody := none }

/-- `response.ok`: status in the range 200–299. -/
def respOk (r : Resp) : Bool := 200 ≤ r.status && r.status < 300

/-- Module-level rate-limit tracking of utils.js (`rateLimitRemaining`,
`rateLimitReset` in milliseconds); both start as `null`. -/
structure RateLimitState where
  rateLimitRemaining : Option Nat
  rateLimitReset : Option Nat
deriving DecidableEq

def initialRateLimitState : RateLimitState := { rateLimitRemaining := none, rateLimitReset := none }

/-- `handleRateLimit(response)`: updates the tracked counters from the headers,
then, on 429 or a zero remaining quota, computes the wait
`Math.max(0, rateLimitReset - Date.now() + 1000)` (60,000 ms when no truthy
reset value is known) and suspends.  Returns the new state and the wait (ms). -/
def handleRateLimit (response : Resp) (st : RateLimitState) (now : Nat) :
    RateLimitState × Option Nat :=
  let st1 : RateLimitState :=
    { rateLimitRemaining := match response.remaining with
        | some v => some v
        | none => st.rateLimitRemaining
      rateLimitReset := match response.reset with
        | some v => some (v * 1000)
        | none => st.rateLimitReset }
  if response.status = 429 ∨ st1.rateLimitRemaining = some 0 then
    let waitTime : Nat :=
      match st1.rateLimitReset with
      | some resetMs =>
        if resetMs = 0 then 60000 else (max 0 ((resetMs : Int) - (now : Int) + 1000)).toNat
      | none => 60000
    (st1, some waitTime)
  else (st1, none)

/-- The retry loop of `githubApiRequest`, recursing on the remaining attempts.
`fetchResp i` is the i-th `fetch` call (`none` = the fetch throws, which
propagates to the caller).  The clock advances by each awaited wait; the waits
performed are accumulated.  When the loop falls through (`maxRetries ≤ 0`),
the source issues one final fetch. -/
def githubApiAttempts (fetchResp : Nat → Option Resp) :
    Nat → Nat → RateLimitState → Nat → List Nat →
    Option (Resp × RateLimitState × Nat × List Nat)
  | 0, calls, st, now, waits =>
    match fetchResp calls with
    | none => none
    | some r => some (r, st, now, waits)
  | fuel + 1, calls, st, now, waits =>
    match fetchResp calls with
    | none => none
    | some response =>
      if response.status = 429 then
        let hr := handleRateLimit response st now
        let now1 := now + (hr.2.getD 0)
        let waits1 := waits ++ hr.2.toList
        if fuel ≠ 0 then githubApiAttempts fetchResp fuel (calls + 1) hr.1 now1 waits1
        else some (response, hr.1, now1, waits1)
      else if response.status = 403 then
        if response.remaining = some 0 then
          let hr := handleRateLimit response st now
          let now1 := now + (hr.2.getD 0)
          let waits1 := waits ++ hr.2.toList
          if fuel ≠ 0 then githubApiAttempts fetchResp fuel (calls + 1) hr.1 now1 waits1
          else some (response, hr.1, now1, waits1)
        else some (response, st, now, waits)
      else some (response, st, now, waits)

/-- `githubApiRequest(url, options, maxRetries = 3)`: the response handed back
to the caller, together with the final rate-limit state, clock, and the list
of performed waits.  `none` = an exception propagated (only a thrown fetch). -/
def githubApiRequest (fetchResp : Nat → Option Resp) (maxRetries : Nat)
    (st : RateLimitState) (now : Nat) :
    Option (Resp × RateLimitState × Nat × List Nat) :=
  githubApiAttempts fetchResp maxRetries 0 st now []

/-- The userInfo object `fetchGitHubUserInfo` builds from a 200 body. -/
structure UserInfoObj where
  username : String
  uname : Option String
  avatar_url : String
  html_url : String
  public_repos : Nat
  followers : Nat
  following : Nat
  bio : String
  location : String
  blog : String
  company : String
deriving DecidableEq

/-- The per-handle GitHub user cache (`githubUserCache`): `none` = no entry,
`some none` = cached `null` ("known not to exist"), `some (some u)` = cached info. -/
def UserCache := String → Option (Option UserInfoObj)

/-- The empty per-handle cache. -/
def emptyUserCache : UserCache := fun _ => none

/-- `githubUserCache[username] = v`. -/
def cacheInsert (c : UserCache) (k : String) (v : Option UserInfoObj) : UserCache :=
  fun k2 => if k2 = k then some v else c k2

/-- The userInfo object built from the parsed 200 body. -/
def mkUserInfo (u : UserData) : UserInfoObj :=
  { username := u.login, uname := u.name, avatar_url := u.avatar_url, html_url := u.html_url
    public_repos := u.public_repos, followers := u.followers, following := u.following
    bio := jsOrS u.bio "", location := jsOrS u.location "", blog := jsOrS u.blog ""
    company := jsOrS u.company "" }

/-- `fetchGitHubUserInfo(githubUsername, useCache = true)`.  `net` is the
response handed back by `githubApiRequest` (`none` = it threw).  Returns the
result, the cache afterwards, and whether a network request was issued.
200: build, cache and return the info.  404: cache `null` and return it.
403/429: return `null` without caching.  Anything else (or a throw, or an
unparseable body): return `null` without caching. -/
def fetchGitHubUserInfo (githubUsername : String) (useCache : Bool)
    (net : Option Resp) (cache : UserCache) :
    Option UserInfoObj × UserCache × Bool :=
  if useCache ∧ (cache githubUsername).isSome then
    ((cache githubUsername).getD none, cache, false)
  else
    match net with
    | none => (none, cache, true)
    | some response =>
      if respOk response then
        match response.userBody with
        | none => (none, cache, true)
        | some userData =>
          let userInfo := mkUserInfo userData
          (some userInfo, cacheInsert cache githubUsername (some userInfo), true)
      else if response.status = 404 then
        (none, cacheInsert cache githubUsername none, true)
      else if response.status = 403 ∨ response.status = 429 then
        (none, cache, true)
      else
        (none, cache, true)

/-- The repository object `fetchUserRepositories` pushes for each raw item. -/
structure RepoOut where
  rid : Nat
  name : String
  full_name : String
  description : String
  url : String
  language : Option String
  stars : Nat
  forks : Nat
  open_issues : Nat
  is_private : Bool
  created_at : Int
  updated_at : Int
  pushed_at : Int
  default_branch : String
deriving DecidableEq

def mkRepoOut (repo : RepoItem) : RepoOut :=
  { rid := repo.rid, name := repo.name, full_name := repo.full_name
    description := repo.description.getD "", url := repo.html_url
    language := (match repo.language with
      | some s => if s = "" then none else some s
      | none => none)
    stars := repo.stargazers_count.getD 0, forks := repo.forks_count.getD 0
    open_issues := repo.open_issues_count.getD 0, is_private := repo.isPrivate
    created_at := repo.created_at, updated_at := repo.updated_at
    pushed_at := repo.pushed_at, default_branch := repo.default_branch }

/-- The while loop of `fetchUserRepositories`.  `net p` is the response of the
request for page `p` (`none` = the fetch or `response.json()` threw; the outer
catch then returns `[]`, discarding the partial list).  A 404 terminates; a
403/429 mid-pagination returns the partial list; any other non-OK status is
thrown and caught, yielding `[]`.  An empty page terminates; otherwise items
are pushed up to `limit` and pagination continues only when the page was full
(100 items) and the `Link` header is absent or still advertises a next page. -/
def fetchReposLoop (net : Nat → Option Resp) (limit : Nat) (page : Nat)
    (allRepos : List RepoOut) : List RepoOut :=
  if _h : allRepos.length < limit then
    match net page with
    | none => []
    | some response =>
      if respOk response then
        match response.repoBody with
        | none => []
        | some repos =>
          if hne : repos.length = 0 then allRepos
          else
            let allRepos2 := allRepos ++ (repos.take (limit - allRepos.length)).map mkRepoOut
            let hasMore := repos.length = 100 ∧ (response.linkNext = none ∨ response.linkNext = some true)
            if hasMore then fetchReposLoop net limit (page + 1) allRepos2
            else allRepos2
      else
        if response.status = 404 then allRepos
        else if response.status = 403 ∨ response.status = 429 then allRepos
        else []
  else allRepos
termination_by limit - allRepos.length
decreasing_by
  simp only [allRepos2, List.length_append, List.length_map, List.length_take]
  have hlen : 0 < repos.length := Nat.pos_of_ne_zero hne
  omega

/-- `fetchUserRepositories(githubUsername, limit = 100)`: paginate from page 1
with an empty accumulator. -/
def fetchUserRepositories (net : Nat → Option Resp) (limit : Nat) : List RepoOut :=
  fetchReposLoop net limit 1 []

/-- The per-repo loop of `fetchUserLanguages`, over the first
`min 20 repos.length` repositories; `net k` is the k-th API request of the
fetcher.  A thrown request or body is caught per-repo and the loop continues;
a 403/429 stops the loop; an OK body's entries with a truthy, non-blank name
are summed into the breakdown. -/
def langLoop (net : Nat → Option Resp) (k : Nat) :
    List RepoItem → List (String × Int) → List (String × Int)
  | [], acc => acc
  | _repo :: rest, acc =>
    match net k with
    | none => langLoop net (k + 1) rest acc
    | some langResponse =>
      if respOk langResponse then
        match langResponse.langBody with
        | none => langLoop net (k + 1) rest acc
        | some repoLanguages =>
          let acc2 := repoLanguages.foldl (fun a p =>
            if p.1 ≠ "" ∧ jsTrim p.1 ≠ "" then objInc a p.1 p.2 else a) acc
          langLoop net (k + 1) rest acc2
      else if langResponse.status = 403 ∨ langResponse.status = 429 then acc
      else langLoop net (k + 1) rest acc

/-- `fetchUserLanguages(githubUsername, limit = 100)`: `{}` when no token is
configured; request the repo list (`net 0`), `{}` on any failure; then sum
language maps over at most the first 20 repos. -/
def fetchUserLanguages (hasToken : Bool) (net : Nat → Option Resp) :
    List (String × Int) :=
  if !hasToken then []
  else
    match net 0 with
    | none => []
    | some reposResponse =>
      if !respOk reposResponse then []
      else
        match reposResponse.repoBody with
        | none => []
        | some repos =>
          let reposToCheck := repos.take (min 20 repos.length)
          langLoop net 1 reposToCheck []

/-- The commit object `fetchRecentCommits` pushes (first line of the message). -/
structure CommitOut where
  sha : String
  message : String
  author : String
  date : Int
  url : String
  repository : String
  repositoryUrl : String
deriving DecidableEq

def mkCommitOut (repo : RepoItem) (c : CommitData) : CommitOut :=
  { sha := c.sha, message := (c.message.splitOn "\n").headD ""
    author := c.authorName, date := c.authorDate, url := c.html_url
    repository := repo.full_name, repositoryUrl := repo.html_url }

/-- The per-repo loop of `fetchRecentCommits` over the first 10 repositories:
stop once `limit` commits are collected; a thrown request is caught per-repo
and the loop continues; a 403/429 stops the loop; an OK page's commits are
pushed up to `limit`. -/
def commitLoop (net : Nat → Option Resp) (k limit : Nat) :
    List RepoItem → List CommitOut → List CommitOut
  | [], acc => acc
  | repo :: rest, acc =>
    if acc.length ≥ limit then acc
    else
      match net k with
      | none => commitLoop net (k + 1) limit rest acc
      | some commitsResponse =>
        if respOk commitsResponse then
          match commitsResponse.commitBody with
          | none => commitLoop net (k + 1) limit rest acc
          | some commits =>
            let acc2 := acc ++ (commits.take (limit - acc.length)).map (mkCommitOut repo)
            commitLoop net (k + 1) limit rest acc2
        else if commitsResponse.status = 403 ∨ commitsResponse.status = 429 then acc
        else commitLoop net (k + 1) limit rest acc

/-- `fetchRecentCommits(githubUsername, limit = 30)`: `[]` when no token is
configured; request the repo list (`net 0`), `[]` on any failure; then collect
commits over at most the first 10 repos, sort by descending date (stable) and
truncate to `limit`. -/
def fetchRecentCommits (hasToken : Bool) (net : Nat → Option Resp) (limit : Nat) :
    List CommitOut :=
  if !hasToken then []
  else
    match net 0 with
    | none => []
    | some reposResponse =>
      if !respOk reposResponse then []
      else
        match reposResponse.repoBody with
        | none => []
        | some repos =>
          let allCommits := commitLoop net 1 limit (repos.take 10) []
          (jsSortBy (fun a b => b.date ≤ a.date) allCommits).take limit

/-- `fetchUserPullRequests(githubUsername, state = "all", limit = 30)`: the
simplified source returns `[]` both without a token and with one. -/
def fetchUserPullRequests (hasToken : Bool) : List CommitOut :=
  if !hasToken then []
  else []

/-! ## Sample data used by counterexamples and witnesses -/

/-- Whether a member's language data, when present, is in the mapping form. -/
def memberLangsAreMap (m : Member) : Bool :=
  match m.githubActivity with
  | some a =>
    match a.languages with
    | some lgs => lgs.isMap
    | none => true
  | none => true

/-- A member whose language data is the mapping `{JS: 500, Unknown: 10, Go: 0}`. -/
def exampleMapMember : Member :=
  { emptyMember with githubActivity := some { emptyActivity with
      languages := some (.map [("JS", 500), ("Unknown", 10), ("Go", 0)]) } }

/-- A member whose language data is the list form `["null"]`. -/
def exampleArrNullMember : Member :=
  { emptyMember with githubActivity := some { emptyActivity with
      languages := some (.arr [.str "null"]) } }

/-- A member with an aggregate PR count of 5 and no per-item timestamps. -/
def examplePRMember : Member :=
  { emptyMember with githubActivity := some { emptyActivity with
      pullRequests := some 5 } }

/-- A member used to exercise the persistence-failure path. -/
def exampleMember1 : Member := { emptyMember with id := "m1" }

/-- A parsed 200 profile body. -/
def exampleUserData : UserData :=
  { login := "octocat", name := some "The Octocat", avatar_url := "a", html_url := "h"
    public_repos := 8, followers := 3, following := 2
    bio := none, location := none, blog := none, company := none }

/-- A 200 response carrying that profile body. -/
def exampleOkUserResp : Resp :=
  { statusResp 200 with userBody := some exampleUserData }

/-- Two members with equal commit counts, to witness ranking stability. -/
def exampleCommitterA : Member :=
  { emptyMember with
    displayName := some "A"
    githubActivity := some { emptyActivity with commits := some 7 } }

def exampleCommitterB : Member :=
  { emptyMember with
    firstName := some "B"
    githubActivity := some { emptyActivity with commits := some 7 } }

/-- A raw repository item. -/
def exampleRepoItem : RepoItem :=
  { rid := 1, name := "r", full_name := "octocat/r", description := none, html_url := "u"
    language := some "JS", stargazers_count := some 2, forks_count := none
    open_issues_count := none, isPrivate := false
    created_at := 0, updated_at := 0, pushed_at := 0, default_branch := "main" }

/-- A member whose ranked field `pullRequests` is defined but zero (and no
other PR counts): the truthy filter of `getTopPRCreators` excludes it. -/
def examplePRZeroMember : Member :=
  { emptyMember with
    githubActivity := some { emptyActivity with pullRequests := some 0 } }

/-- A member whose ranked field `pullRequests` is undefined but whose
`mergedPRs` is nonzero: the truthy filter of `getTopPRCreators` includes it. -/
def exampleMergedOnlyMember : Member :=
  { emptyMember with
    githubActivity := some { emptyActivity with mergedPRs := some 3 } }

/-- A 200 page response carrying a single repository. -/
def exampleRepoPage : Resp :=
  { statusResp 200 with repoBody := some [exampleRepoItem] }

/-- A network oracle: the request for page 1 returns the single-repo page,
any later request throws. -/
def exampleNet : Nat → Option Resp :=
  fun p => if p = 1 then some exampleRepoPage else none

/-! ## Helper lemmas -/

theorem foldl_invariant {α β : Type _} (f : β → α → β) (Inv : β → Prop) (l : List α)
    (acc : β) (h0 : Inv acc) (hstep : ∀ b a, a ∈ l → Inv b → Inv (f b a)) :
    Inv (l.foldl f acc) := by
  induction l generalizing acc with
  | nil => exact h0
  | cons x xs ih =>
    exact ih (f acc x) (hstep acc x (by simp) h0)
      (fun b a ha hb => hstep b a (by simp [ha]) hb)

theorem jsInsert_mem {α : Type _} {le : α → α → Bool} {a b : α} {l : List α} :
    b ∈ jsInsert le a l ↔ b = a ∨ b ∈ l := by
  induction l with
  | nil => simp [jsInsert]
  | cons c l ih =>
    simp only [jsInsert]
    split
    · simp [List.mem_cons]
    · simp only [List.mem_cons, ih]
      tauto

theorem jsSortBy_mem {α : Type _} {le : α → α → Bool} {b : α} {l : List α} :
    b ∈ jsSortBy le l ↔ b ∈ l := by
  induction l with
  | nil => simp [jsSortBy]
  | cons a l ih => simp [jsSortBy, jsInsert_mem, ih]

theorem jsInsert_pairwise {α : Type _} {le : α → α → Bool}
    (tot : ∀ x y, le x y = true ∨ le y x = true)
    (tr : ∀ x y z, le x y = true → le y z = true → le x z = true)
    {a : α} {l : List α} (h : l.Pairwise (fun x y => le x y = true)) :
    (jsInsert le a l).Pairwise (fun x y => le x y = true) := by
  induction l with
  | nil => simp [jsInsert]
  | cons b l ih =>
    rw [List.pairwise_cons] at h
    obtain ⟨hb, hl⟩ := h
    simp only [jsInsert]
    by_cases hab : le a b = true
    · rw [if_pos hab, List.pairwise_cons]
      refine ⟨?_, List.pairwise_cons.mpr ⟨hb, hl⟩⟩
      intro y hy
      rcases List.mem_cons.mp hy with rfl | hy
      · exact hab
      · exact tr _ _ _ hab (hb _ hy)
    · rw [if_neg hab, List.pairwise_cons]
      refine ⟨?_, ih hl⟩
      intro y hy
      rcases jsInsert_mem.mp hy with rfl | hy
      · rcases tot b y with hba | hba
        · exact hba
        · exact absurd hba hab
      · exact hb _ hy

theorem jsSortBy_pairwise {α : Type _} {le : α → α → Bool}
    (tot : ∀ x y, le x y = true ∨ le y x = true)
    (tr : ∀ x y z, le x y = true → le y z = true → le x z = true)
    (l : List α) : (jsSortBy le l).Pairwise (fun x y => le x y = true) := by
  induction l with
  | nil => simp [jsSortBy]
  | cons a l ih => exact jsInsert_pairwise tot tr ih

theorem jsInsert_filter_pos {α : Type _} {le : α → α → Bool} {p : α → Bool} {a : α}
    {l : List α} (hpa : p a = true) (hle : ∀ b ∈ l, p b = true → le a b = true) :
    (jsInsert le a l).filter p = a :: l.filter p := by
  induction l with
  | nil => simp [jsInsert, hpa]
  | cons b l ih =>
    simp only [jsInsert]
    by_cases hab : le a b = true
    · rw [if_pos hab, List.filter_cons, if_pos hpa]
    · rw [if_neg hab, List.filter_cons]
      by_cases hpb : p b = true
      · exact absurd (hle b (by simp) hpb) hab
      · rw [if_neg (by simpa using hpb),
          ih (fun c hc hpc => hle c (List.mem_cons_of_mem _ hc) hpc),
          List.filter_cons, if_neg (by simpa using hpb)]

theorem jsInsert_filter_neg {α : Type _} {le : α → α → Bool} {p : α → Bool} {a : α}
    {l : List α} (hpa : p a = false) :
    (jsInsert le a l).filter p = l.filter p := by
  induction l with
  | nil => simp [jsInsert, hpa]
  | cons b l ih =>
    simp only [jsInsert]
    by_cases hab : le a b = true
    · rw [if_pos hab, List.filter_cons, if_neg (by simp [hpa])]
    · rw [if_neg hab, List.filter_cons, List.filter_cons, ih]

theorem jsSortBy_filter_eq {α : Type _} {le : α → α → Bool} {p : α → Bool}
    (hp : ∀ x y, p x = true → p y = true → le x y = true) (l : List α) :
    (jsSortBy le l).filter p = l.filter p := by
  induction l with
  | nil => rfl
  | cons a l ih =>
    simp only [jsSortBy]
    by_cases hpa : p a = true
    · rw [jsInsert_filter_pos hpa (fun b _hb hpb => hp a b hpa hpb), ih,
        List.filter_cons, if_pos hpa]
    · rw [jsInsert_filter_neg (by simpa using hpa), ih, List.filter_cons,
        if_neg (by simpa using hpa)]

theorem filter_take_sublist {α : Type _} (p : α → Bool) (n : Nat) (l : List α) :
    List.Sublist ((l.take n).filter p) (l.filter p) :=
  (l.take_sublist n).filter p

theorem objInc_forall {P : String × Int → Prop} {m : List (String × Int)}
    {k : String} {v : Int} (hm : ∀ q ∈ m, P q) (hkv : P (k, v))
    (hadd : ∀ k0 v0, P (k0, v0) → P (k0, v0 + v)) :
    ∀ q ∈ objInc m k v, P q := by
  induction m with
  | nil => simpa [objInc] using hkv
  | cons q0 rest ih =>
    obtain ⟨k0, v0⟩ := q0
    simp only [objInc]
    split
    · intro q hq
      rcases List.mem_cons.mp hq with rfl | hq
      · exact hadd k0 v0 (hm _ (by simp))
      · exact hm _ (List.mem_cons_of_mem _ hq)
    · intro q hq
      rcases List.mem_cons.mp hq with rfl | hq
      · exact hm _ (by simp)
      · exact ih (fun q hq => hm q (List.mem_cons_of_mem _ hq)) q hq

theorem foldl_max_spec (x : Int) (xs : List Int) :
    (xs.foldl max x = x ∨ xs.foldl max x ∈ xs) ∧ x ≤ xs.foldl max x ∧
      ∀ v ∈ xs, v ≤ xs.foldl max x := by
  induction xs generalizing x with
  | nil => simp
  | cons y ys ih =>
    obtain ⟨hmem, hx, hall⟩ := ih (max x y)
    simp only [List.foldl_cons]
    refine ⟨?_, le_trans (le_max_left x y) hx, ?_⟩
    · rcases hmem with h | h
      · rcases max_choice x y with hc | hc
        · left; rw [h, hc]
        · right; rw [h, hc]; simp
      · right; exact List.mem_cons_of_mem _ h
    · intro v hv
      rcases List.mem_cons.mp hv with rfl | hv
      · exact le_trans (le_max_right x v) hx
      · exact hall v hv

theorem listMax_mem {l : List Int} (h : l ≠ []) : listMax l ∈ l := by
  cases l with
  | nil => exact absurd rfl h
  | cons x xs =>
    rcases (foldl_max_spec x xs).1 with h1 | h1
    · simp [listMax, h1]
    · simp [listMax, List.mem_cons_of_mem _ h1]

theorem le_listMax {l : List Int} : ∀ v ∈ l, v ≤ listMax l := by
  cases l with
  | nil => simp
  | cons x xs =>
    intro v hv
    rcases List.mem_cons.mp hv with rfl | hv
    · exact (foldl_max_spec v xs).2.1
    · exact (foldl_max_spec x xs).2.2 v hv

theorem fallbackFill_length (base : Nat) : ∀ d rem, (fallbackFill base rem d).length = d := by
  intro d
  induction d with
  | zero => intro rem; rfl
  | succ d ih => intro rem; simp [fallbackFill, ih]

theorem fallbackFill_getD (base : Nat) :
    ∀ d rem i, i < d →
      (fallbackFill base rem d).getD i 0 = base + if i < rem then 1 else 0 := by
  intro d
  induction d with
  | zero => intro rem i hi; omega
  | succ d ih =>
    intro rem i hi
    cases i with
    | zero =>
      simp only [fallbackFill, List.getD_cons_zero]
    | succ i =>
      simp only [fallbackFill, List.getD_cons_succ]
      rw [ih (rem - 1) i (by omega)]
      congr 1
      by_cases h : i < rem - 1
      · rw [if_pos h, if_pos (by omega)]
      · rw [if_neg h, if_neg (by omega)]

theorem fallbackFill_sum (base : Nat) :
    ∀ d rem, (fallbackFill base rem d).sum = d * base + min rem d := by
  intro d
  induction d with
  | zero => intro rem; simp [fallbackFill]
  | succ d ih =>
    intro rem
    simp only [fallbackFill, List.sum_cons, ih (rem - 1), Nat.succ_mul]
    by_cases h : 0 < rem
    · rw [if_pos h]; omega
    · rw [if_neg h]; omega

/-! ## Claim theorems -/

/-- C2: for every members collection `X`, `setMembers X` followed by
`loadMembersData false` returns exactly `X` without invoking the
document-store query path, because both persisted cache keys exist
after the `set`. -/
theorem C2_set_then_load_returns_cache (st : StoreState) (X : List Member)
    (now1 now2 : Nat) (Q : Option (List Member)) (sf2 : Bool) :
    (setMembers false now1 X st).storage.cacheKey = some X ∧
    (setMembers false now1 X st).storage.timestampKey = some now1 ∧
    loadMembersData false Q sf2 now2 (setMembers false now1 X st) =
      (X, setMembers false now1 X st, false) := by
  exact ⟨rfl, rfl, rfl⟩

/-- C7 counterexample: after a failed persist of a nonempty collection the
in-memory collection holds that collection — it is not emptied, refuting
"continues with an empty in-memory collection" (both keys are cleared). -/
theorem C7_counterexample_members_not_emptied :
    (setMembers true 5 [exampleMember1] initialStoreState).members = [exampleMember1] ∧
    (setMembers true 5 [exampleMember1] initialStoreState).members ≠ [] ∧
    (setMembers true 5 [exampleMember1] initialStoreState).storage.cacheKey = none ∧
    (setMembers true 5 [exampleMember1] initialStoreState).storage.timestampKey = none := by
  exact ⟨rfl, by decide, rfl, rfl⟩

/-- C7 amended: when persisting fails, the failure is logged, both persisted
keys are cleared, and the operation continues with the collection it was
saving as the in-memory collection (returned to the caller); `lastFetchTime`
is not advanced and the in-memory collection is not emptied. -/
theorem C7_persistence_failure_amended (st : StoreState) (X docs : List Member)
    (now : Nat) :
    (setMembers true now X st).members = X ∧
    (setMembers true now X st).storage.cacheKey = none ∧
    (setMembers true now X st).storage.timestampKey = none ∧
    (setMembers true now X st).lastFetchTime = st.lastFetchTime ∧
    (loadMembersData true (some docs) true now st).1 = docs ∧
    (loadMembersData true (some docs) true now st).2.1.members = docs ∧
    (loadMembersData true (some docs) true now st).2.1.storage.cacheKey = none ∧
    (loadMembersData true (some docs) true now st).2.1.storage.timestampKey = none ∧
    (loadMembersData true (some docs) true now st).2.2 = true := by
  exact ⟨rfl, rfl, rfl, rfl, rfl, rfl, rfl, rfl, rfl⟩

/-- C3: with at least one day and no member supplying per-item timestamps,
the fallback of `getPRTrendsData` yields `days` buckets summing to the
aggregate PR count `C`, each bucket `C / days` or `C / days + 1`, the
`+1` buckets being exactly the earliest `C % days` days. -/
theorem C3_pr_trend_fallback (dayStart : Nat → Int) (members : List Member)
    (days : Nat) (hd : 1 ≤ days) (hempty : ∀ m ∈ members, recentOf m = []) :
    (getPRTrendsData dayStart members days).length = days ∧
    (getPRTrendsData dayStart members days).sum =
      members.foldl (fun s m => s + prCountOf m) 0 ∧
    ∀ i, i < days →
      (getPRTrendsData dayStart members days).getD i 0 =
        (members.foldl (fun s m => s + prCountOf m) 0) / days +
          if i < (members.foldl (fun s m => s + prCountOf m) 0) % days then 1
          else 0 := by
  have hts : members.any (fun m => (recentOf m).length ≠ 0) = false := by
    rw [List.any_eq_false]
    intro m hm
    simp [hempty m hm]
  have heq : getPRTrendsData dayStart members days =
      fallbackFill ((members.foldl (fun s m => s + prCountOf m) 0) / days)
        ((members.foldl (fun s m => s + prCountOf m) 0) -
          (members.foldl (fun s m => s + prCountOf m) 0) / days * days) days := by
    simp only [getPRTrendsData, hts, Bool.false_eq_true, if_false]
  have hrem : (members.foldl (fun s m => s + prCountOf m) 0) -
      (members.foldl (fun s m => s + prCountOf m) 0) / days * days =
      (members.foldl (fun s m => s + prCountOf m) 0) % days := by
    have h1 := Nat.mod_add_div' (members.foldl (fun s m => s + prCountOf m) 0) days
    omega
  have hlt : (members.foldl (fun s m => s + prCountOf m) 0) % days < days :=
    Nat.mod_lt _ (by omega)
  refine ⟨?_, ?_, ?_⟩
  · rw [heq, fallbackFill_length]
  · rw [heq, hrem, fallbackFill_sum, Nat.min_eq_left (le_of_lt hlt)]
    have h2 := Nat.div_add_mod (members.foldl (fun s m => s + prCountOf m) 0) days
    omega
  · intro i hi
    rw [heq, hrem, fallbackFill_getD _ days _ i hi]

/-- C3 witness: one member with 5 aggregate PRs and no timestamps, over a
3-day window: buckets have length 3, sum 5, and values 2, 2, 1. -/
theorem C3_pr_trend_fallback_witness :
    (getPRTrendsData (fun _ => 0) [examplePRMember] 3).length = 3 ∧
    (getPRTrendsData (fun _ => 0) [examplePRMember] 3).sum = 5 ∧
    (getPRTrendsData (fun _ => 0) [examplePRMember] 3).getD 0 0 = 2 ∧
    (getPRTrendsData (fun _ => 0) [examplePRMember] 3).getD 1 0 = 2 ∧
    (getPRTrendsData (fun _ => 0) [examplePRMember] 3).getD 2 0 = 1 := by
  have h := C3_pr_trend_fallback (fun _ => 0) [examplePRMember] 3 (by decide)
    (by decide)
  exact ⟨h.1, h.2.1, h.2.2 0 (by decide), h.2.2 1 (by decide), h.2.2 2 (by decide)⟩

theorem topTen_spec {β : Type _} (key : β → Nat) (l : List β) :
    ((jsSortBy (fun a b => key b ≤ key a) l).take 10).length ≤ 10 ∧
    ((jsSortBy (fun a b => key b ≤ key a) l).take 10).Pairwise
      (fun a b => key b ≤ key a) ∧
    (∀ e ∈ (jsSortBy (fun a b => key b ≤ key a) l).take 10, e ∈ l) ∧
    (∀ v, List.Sublist
      (((jsSortBy (fun a b => key b ≤ key a) l).take 10).filter (fun e => key e == v))
      (l.filter (fun e => key e == v))) := by
  have tot : ∀ x y : β, (decide (key y ≤ key x)) = true ∨ (decide (key x ≤ key y)) = true := by
    intro x y
    rcases le_total (key y) (key x) with h | h
    · left; exact decide_eq_true h
    · right; exact decide_eq_true h
  have tr : ∀ x y z : β, (decide (key y ≤ key x)) = true →
      (decide (key z ≤ key y)) = true → (decide (key z ≤ key x)) = true := by
    intro x y z h1 h2
    exact decide_eq_true (le_trans (of_decide_eq_true h2) (of_decide_eq_true h1))
  refine ⟨List.length_take_le 10 _, ?_, ?_, ?_⟩
  · have hp := jsSortBy_pairwise tot tr l
    have hp2 := List.Pairwise.sublist (List.take_sublist 10 _) hp
    exact hp2.imp (fun h => of_decide_eq_true h)
  · intro e he
    exact jsSortBy_mem.mp (List.mem_of_mem_take he)
  · intro v
    have h1 := filter_take_sublist (fun e => key e == v) 10
      (jsSortBy (fun a b => key b ≤ key a) l)
    have h2 : (jsSortBy (fun a b => key b ≤ key a) l).filter (fun e => key e == v) =
        l.filter (fun e => key e == v) := by
      apply jsSortBy_filter_eq
      intro x y hx hy
      have hx2 : key x = v := by simpa using hx
      have hy2 : key y = v := by simpa using hy
      exact decide_eq_true (by rw [hx2, hy2])
    rw [h2] at h1
    exact h1

/-- C9 amended: the top-committers ranking keeps members with a defined
`commits`, while the top-PR-creators ranking keeps members whose
`pullRequests || mergedPRs || openPRs` is truthy — a defined-but-zero
`pullRequests` with no other nonzero PR counts is excluded, and an undefined
`pullRequests` with a nonzero `mergedPRs`/`openPRs` is included with value 0;
names resolve by the fallback chain (entries carry `memberName`); both sort
descending by value and take the first 10; the sort is stable: entries with
equal values appear in the output in their original relative order (their
filtered subsequence is a sublist of the filtered pre-sort pipeline). -/
theorem C9_topN_rankings_stable (members : List Member) :
    ((getTopCommitters members).length ≤ 10 ∧
     (getTopCommitters members).Pairwise (fun a b => b.commits ≤ a.commits) ∧
     (∀ e ∈ getTopCommitters members, ∃ m ∈ members,
        (match m.githubActivity with
         | some a => a.commits.isSome
         | none => false) = true ∧
        e.name = memberName m ∧
        e.commits = (match m.githubActivity with
         | some a => a.commits.getD 0
         | none => 0)) ∧
     (∀ v : Nat, List.Sublist
        ((getTopCommitters members).filter (fun e => e.commits == v))
        (((members.filter (fun member =>
            match member.githubActivity with
            | some a => a.commits.isSome
            | none => false)).map (fun member =>
            { name := memberName member
              commits := (match member.githubActivity with
                | some a => a.commits.getD 0
                | none => 0)
              contributions := (match member.githubActivity with
                | some a => a.contributions.getD 0
                | none => 0) : CommitterEntry } )).filter (fun e => e.commits == v)))) ∧
    ((getTopPRCreators members).length ≤ 10 ∧
     (getTopPRCreators members).Pairwise (fun a b => b.prs ≤ a.prs) ∧
     (∀ e ∈ getTopPRCreators members, ∃ m ∈ members,
        (match m.githubActivity with
         | some a => a.pullRequests.getD 0 ≠ 0 || a.mergedPRs.getD 0 ≠ 0 ||
             a.openPRs.getD 0 ≠ 0
         | none => false) = true ∧
        e.name = memberName m ∧
        e.prs = (match m.githubActivity with
         | some a => a.pullRequests.getD 0
         | none => 0)) ∧
     (∀ v : Nat, List.Sublist
        ((getTopPRCreators members).filter (fun e => e.prs == v))
        (((members.filter (fun member =>
            match member.githubActivity with
            | some a => a.pullRequests.getD 0 ≠ 0 || a.mergedPRs.getD 0 ≠ 0 ||
                a.openPRs.getD 0 ≠ 0
            | none => false)).map (fun member =>
            { name := memberName member
              prs := (match member.githubActivity with
                | some a => a.pullRequests.getD 0
                | none => 0)
              merged := (match member.githubActivity with
                | some a => a.mergedPRs.getD 0
                | none => 0)
              openPRs := (match member.githubActivity with
                | some a => a.openPRs.getD 0
                | none => 0)
              closedPRs := (match member.githubActivity with
                | some a => a.closedPRs.getD 0
                | none => 0) : PRCreatorEntry } )).filter (fun e => e.prs == v)))) := by
  constructor
  · have h := topTen_spec CommitterEntry.commits
      ((members.filter (fun member =>
        match member.githubActivity with
        | some a => a.commits.isSome
        | none => false)).map (fun member =>
        { name := memberName member
          commits := (match member.githubActivity with
            | some a => a.commits.getD 0
            | none => 0)
          contributions := (match member.githubActivity with
            | some a => a.contributions.getD 0
            | none => 0) : CommitterEntry } ))
    refine ⟨h.1, h.2.1, ?_, h.2.2.2⟩
    intro e he
    have hmem := h.2.2.1 e he
    rcases List.mem_map.mp hmem with ⟨m, hm, rfl⟩
    rcases List.mem_filter.mp hm with ⟨hm2, hpred⟩
    exact ⟨m, hm2, hpred, rfl, rfl⟩
  · have h := topTen_spec PRCreatorEntry.prs
      ((members.filter (fun member =>
        match member.githubActivity with
        | some a => a.pullRequests.getD 0 ≠ 0 || a.mergedPRs.getD 0 ≠ 0 ||
            a.openPRs.getD 0 ≠ 0
        | none => false)).map (fun member =>
        { name := memberName member
          prs := (match member.githubActivity with
            | some a => a.pullRequests.getD 0
            | none => 0)
          merged := (match member.githubActivity with
            | some a => a.mergedPRs.getD 0
            | none => 0)
          openPRs := (match member.githubActivity with
            | some a => a.openPRs.getD 0
            | none => 0)
          closedPRs := (match member.githubActivity with
            | some a => a.closedPRs.getD 0
            | none => 0) : PRCreatorEntry } ))
    refine ⟨h.1, h.2.1, ?_, h.2.2.2⟩
    intro e he
    have hmem := h.2.2.1 e he
    rcases List.mem_map.mp hmem with ⟨m, hm, rfl⟩
    rcases List.mem_filter.mp hm with ⟨hm2, hpred⟩
    exact ⟨m, hm2, hpred, rfl, rfl⟩

/-- C9 witness: on two concrete members with equal commit counts, the ranking
entry named "A" arises from a member of the input by the fallback chain. -/
theorem C9_topN_rankings_stable_witness :
    ∃ m ∈ [exampleCommitterA, exampleCommitterB],
      (match m.githubActivity with
       | some a => a.commits.isSome
       | none => false) = true ∧
      ({ name := "A", commits := 7, contributions := 0 } : CommitterEntry).name =
        memberName m ∧
      ({ name := "A", commits := 7, contributions := 0 } : CommitterEntry).commits =
        (match m.githubActivity with
         | some a => a.commits.getD 0
         | none => 0) :=
  (C9_topN_rankings_stable [exampleCommitterA, exampleCommitterB]).1.2.2.1
    { name := "A", commits := 7, contributions := 0 } (by decide)

theorem mergeMemberLanguages_pos (lgs : Languages) {acc : List (String × Int)}
    (h : ∀ q ∈ acc, 0 < q.2) : ∀ q ∈ mergeMemberLanguages acc lgs, 0 < q.2 := by
  cases lgs with
  | map entries =>
    simp only [mergeMemberLanguages]
    refine foldl_invariant _ (fun a : List (String × Int) => ∀ q ∈ a, 0 < q.2) _ _ h ?_
    intro b p _hp hb
    dsimp only
    split
    · rename_i hcond
      exact objInc_forall hb hcond.2.1 (fun _ v0 h0 => add_pos h0 hcond.2.1)
    · exact hb
  | arr entries =>
    simp only [mergeMemberLanguages]
    refine foldl_invariant _ (fun a : List (String × Int) => ∀ q ∈ a, 0 < q.2) _ _ h ?_
    intro b e _he hb
    cases e with
    | str s =>
      dsimp only
      split
      · exact objInc_forall hb one_pos (fun _ v0 h0 => add_pos h0 one_pos)
      · exact hb
    | named name count value =>
      dsimp only
      split
      · split
        · rename_i hcond
          exact objInc_forall hb hcond.2.2 (fun _ v0 h0 => add_pos h0 hcond.2.2)
        · exact hb
      · exact hb
    | other => exact hb

theorem mergeMemberLanguages_not_null (lgs : Languages) (hmap : lgs.isMap = true)
    {acc : List (String × Int)} (h : ∀ q ∈ acc, q.1 ≠ "null") :
    ∀ q ∈ mergeMemberLanguages acc lgs, q.1 ≠ "null" := by
  cases lgs with
  | arr entries => simp [Languages.isMap] at hmap
  | map entries =>
    simp only [mergeMemberLanguages]
    refine foldl_invariant _ (fun a : List (String × Int) => ∀ q ∈ a, q.1 ≠ "null") _ _ h ?_
    intro b p _hp hb
    dsimp only
    split
    · rename_i hcond
      exact objInc_forall hb hcond.2.2.2 (fun _ _ h0 => h0)
    · exact hb

theorem languageCountsOf_pos (members : List Member) :
    ∀ q ∈ languageCountsOf members, 0 < q.2 := by
  refine foldl_invariant _ (fun a : List (String × Int) => ∀ q ∈ a, 0 < q.2) _ _ (by simp) ?_
  intro b m _hm hb
  dsimp only
  split
  · split
    · rename_i lgs _
      exact mergeMemberLanguages_pos lgs hb
    · exact hb
  · exact hb

theorem languageCountsOf_not_null (members : List Member)
    (h : ∀ m ∈ members, memberLangsAreMap m = true) :
    ∀ q ∈ languageCountsOf members, q.1 ≠ "null" := by
  refine foldl_invariant _ (fun a : List (String × Int) => ∀ q ∈ a, q.1 ≠ "null") _ _ (by simp) ?_
  intro b m hm hb
  have h2 := h m hm
  rw [memberLangsAreMap.eq_def] at h2
  generalize hact : m.githubActivity = oact at h2 ⊢
  cases oact with
  | none => exact hb
  | some a =>
    simp only at h2 ⊢
    generalize hlg : a.languages = olg at h2 ⊢
    cases olg with
    | none => exact hb
    | some lgs =>
      simp only at h2 ⊢
      exact mergeMemberLanguages_not_null lgs h2 hb

theorem getLanguageData_eq (members : List Member) :
    getLanguageData members = noLanguageData ∨
    (((jsSortBy (fun a b => b.2 ≤ a.2) (languageCountsOf members)).take 15).filter
        (fun p => decide (p.1 ≠ "" ∧ jsTrim p.1 ≠ "" ∧ jsTrim p.1 ≠ "Unknown")) ≠ [] ∧
     getLanguageData members =
       { labels := (((jsSortBy (fun a b => b.2 ≤ a.2) (languageCountsOf members)).take
            15).filter
            (fun p => decide (p.1 ≠ "" ∧ jsTrim p.1 ≠ "" ∧ jsTrim p.1 ≠ "Unknown"))).map (·.1)
         dataVals := (((jsSortBy (fun a b => b.2 ≤ a.2) (languageCountsOf members)).take
            15).filter
            (fun p => decide (p.1 ≠ "" ∧ jsTrim p.1 ≠ "" ∧ jsTrim p.1 ≠ "Unknown"))).map (·.2)
         isBytes := decide (listMax ((((jsSortBy (fun a b => b.2 ≤ a.2)
            (languageCountsOf members)).take 15).filter
            (fun p => decide (p.1 ≠ "" ∧ jsTrim p.1 ≠ "" ∧ jsTrim p.1 ≠ "Unknown"))).map (·.2))
            > 10000) }) := by
  rw [getLanguageData]
  by_cases h1 : !hasLanguageDataOf members ∨ languageCountsOf members = []
  · left
    rw [if_pos h1]
  · rw [if_neg h1]
    by_cases h2 : ((jsSortBy (fun a b => b.2 ≤ a.2) (languageCountsOf members)).take
        15).filter
        (fun p => decide (p.1 ≠ "" ∧ jsTrim p.1 ≠ "" ∧ jsTrim p.1 ≠ "Unknown")) = []
    · left
      rw [if_pos h2]
    · right
      rw [if_neg h2]
      exact ⟨h2, rfl⟩

/-- C6 counterexample: a member whose language data is in the list-of-entries
form with the single string entry "null" yields the label "null" — the code
excludes "null" only in the mapping form, refuting the claimed exclusion. -/
theorem C6_counterexample_list_form_retains_null :
    "null" ∈ (getLanguageData [exampleArrNullMember]).labels ∧
    (getLanguageData [exampleArrNullMember]).labels = ["null"] ∧
    (getLanguageData [exampleArrNullMember]).dataVals = [1] := by decide

/-- C6 amended: the language distribution merges both forms and keeps at most
the top 15 entries, sorted descending, with all retained counts positive and
labels never blank or "Unknown"; the unit is byte-valued exactly when some
(equivalently, the maximum) retained value exceeds 10,000; the "null"
exclusion is guaranteed only when every member's language data is in the
mapping form; the mapping `{JS: 500, Unknown: 10, Go: 0}` yields `{JS: 500}`. -/
theorem C6_language_distribution_amended (members : List Member) :
    (getLanguageData members).labels.length ≤ 15 ∧
    (getLanguageData members).dataVals.length = (getLanguageData members).labels.length ∧
    (∀ s ∈ (getLanguageData members).labels, jsTrim s ≠ "" ∧ jsTrim s ≠ "Unknown") ∧
    (getLanguageData members).dataVals.Pairwise (fun x y => y ≤ x) ∧
    (∀ v ∈ (getLanguageData members).dataVals, 0 < v) ∧
    ((getLanguageData members).isBytes = true ↔
      ∃ v ∈ (getLanguageData members).dataVals, 10000 < v) ∧
    ((∀ m ∈ members, memberLangsAreMap m = true) →
      ∀ s ∈ (getLanguageData members).labels, s ≠ "null") ∧
    getLanguageData [exampleMapMember] =
      { labels := ["JS"], dataVals := [500], isBytes := false } := by
  have tot : ∀ x y : String × Int,
      (decide (y.2 ≤ x.2)) = true ∨ (decide (x.2 ≤ y.2)) = true := by
    intro x y
    rcases le_total y.2 x.2 with hx | hx
    · left; exact decide_eq_true hx
    · right; exact decide_eq_true hx
  have tr : ∀ x y z : String × Int, (decide (y.2 ≤ x.2)) = true →
      (decide (z.2 ≤ y.2)) = true → (decide (z.2 ≤ x.2)) = true := by
    intro x y z h1 h2
    exact decide_eq_true (le_trans (of_decide_eq_true h2) (of_decide_eq_true h1))
  rcases getLanguageData_eq members with h | ⟨hne, h⟩
  · rw [h]
    refine ⟨by decide, by decide, by decide, ?_, by decide, by decide, ?_, by decide⟩
    · simp [noLanguageData]
    · intro _ s hs
      simp only [noLanguageData] at hs
      rcases List.mem_singleton.mp hs with rfl
      decide
  · set sl := ((jsSortBy (fun a b : String × Int => b.2 ≤ a.2)
        (languageCountsOf members)).take 15).filter
        (fun p => decide (p.1 ≠ "" ∧ jsTrim p.1 ≠ "" ∧ jsTrim p.1 ≠ "Unknown")) with hsl
    rw [h]
    dsimp only
    have hmemsl : ∀ p : String × Int, p ∈ sl → p ∈ languageCountsOf members := by
      intro p hp
      rw [hsl] at hp
      have hp2 := List.mem_of_mem_filter hp
      have hp3 := List.mem_of_mem_take hp2
      exact jsSortBy_mem.mp hp3
    refine ⟨?_, by simp, ?_, ?_, ?_, ?_, ?_, by decide⟩
    · rw [List.length_map, hsl]
      exact le_trans (List.length_filter_le _ _) (List.length_take_le _ _)
    · intro s hs
      rcases List.mem_map.mp hs with ⟨p, hp, rfl⟩
      rw [hsl] at hp
      rcases List.mem_filter.mp hp with ⟨-, hc0⟩
      simp only [decide_eq_true_eq] at hc0
      exact ⟨hc0.2.1, hc0.2.2⟩
    · rw [List.pairwise_map]
      have hp := jsSortBy_pairwise tot tr (languageCountsOf members)
      have hp2 := List.Pairwise.sublist (List.take_sublist 15 _) hp
      have hsub : List.Sublist sl ((jsSortBy (fun a b : String × Int => b.2 ≤ a.2)
          (languageCountsOf members)).take 15) := by
        rw [hsl]
        exact List.filter_sublist _
      have hp3 := List.Pairwise.sublist hsub hp2
      exact hp3.imp (fun hxy => of_decide_eq_true hxy)
    · intro v hv
      rcases List.mem_map.mp hv with ⟨p, hp, rfl⟩
      exact languageCountsOf_pos members p (hmemsl p hp)
    · have hmapne : sl.map (fun p => p.2) ≠ [] := by
        intro hmape
        rw [List.map_eq_nil_iff] at hmape
        exact hne hmape
      constructor
      · intro hd
        exact ⟨listMax (sl.map (fun p => p.2)), listMax_mem hmapne, of_decide_eq_true hd⟩
      · rintro ⟨v, hv, hgt⟩
        exact decide_eq_true (lt_of_lt_of_le hgt (le_listMax v hv))
    · intro hmap s hs
      rcases List.mem_map.mp hs with ⟨p, hp, rfl⟩
      exact languageCountsOf_not_null members hmap p (hmemsl p hp)

/-- C6 witness: the amended theorem applied to the concrete mapping-form
member, instantiating the mapping-form hypothesis and a concrete label. -/
theorem C6_language_distribution_amended_witness :
    (getLanguageData [exampleMapMember]).labels.length ≤ 15 ∧ ("JS" : String) ≠ "null" :=
  ⟨(C6_language_distribution_amended [exampleMapMember]).1,
   (C6_language_distribution_amended [exampleMapMember]).2.2.2.2.2.2.1 (by decide)
     "JS" (by decide)⟩

/-- C8: with caching enabled and no entry for the handle, a 200 response is
fetched once, transformed, cached under the handle, and a later call returns
the cached value without a request; a 404 caches `null` ("known not to
exist") and a later call returns that `null` without a request. -/
theorem C8_profile_fetch_caching (u : String) (cache : UserCache)
    (hmiss : cache u = none) :
    (∀ r d, respOk r = true → r.userBody = some d →
      fetchGitHubUserInfo u true (some r) cache =
        (some (mkUserInfo d), cacheInsert cache u (some (mkUserInfo d)), true) ∧
      (cacheInsert cache u (some (mkUserInfo d))) u = some (some (mkUserInfo d)) ∧
      ∀ net2, fetchGitHubUserInfo u true net2 (cacheInsert cache u (some (mkUserInfo d))) =
        (some (mkUserInfo d), cacheInsert cache u (some (mkUserInfo d)), false)) ∧
    (∀ r, r.status = 404 →
      fetchGitHubUserInfo u true (some r) cache = (none, cacheInsert cache u none, true) ∧
      (cacheInsert cache u none) u = some none ∧
      ∀ net2, fetchGitHubUserInfo u true net2 (cacheInsert cache u none) =
        (none, cacheInsert cache u none, false)) := by
  constructor
  · intro r d hok hbody
    have hhit : (cacheInsert cache u (some (mkUserInfo d))) u = some (some (mkUserInfo d)) := by
      simp [cacheInsert]
    refine ⟨?_, hhit, ?_⟩
    · simp [fetchGitHubUserInfo.eq_def, hmiss, hok, hbody]
    · intro net2
      rw [fetchGitHubUserInfo.eq_def, if_pos (by simp [hhit])]
      rw [hhit]
      rfl
  · intro r h404
    have hnotok : respOk r = false := by
      rw [respOk, h404]
      rfl
    have hhit : (cacheInsert cache u none) u = some none := by
      simp [cacheInsert]
    refine ⟨?_, hhit, ?_⟩
    · simp [fetchGitHubUserInfo.eq_def, hmiss, hnotok, h404]
    · intro net2
      rw [fetchGitHubUserInfo.eq_def, if_pos (by simp [hhit])]
      rw [hhit]
      rfl

/-- C8 witness: the concrete 200 flow for handle "octocat" on an empty cache. -/
theorem C8_profile_fetch_caching_witness :
    fetchGitHubUserInfo "octocat" true (some exampleOkUserResp) emptyUserCache =
      (some (mkUserInfo exampleUserData),
       cacheInsert emptyUserCache "octocat" (some (mkUserInfo exampleUserData)), true) ∧
    ∀ net2, fetchGitHubUserInfo "octocat" true net2
        (cacheInsert emptyUserCache "octocat" (some (mkUserInfo exampleUserData))) =
      (some (mkUserInfo exampleUserData),
       cacheInsert emptyUserCache "octocat" (some (mkUserInfo exampleUserData)), false) := by
  have h := (C8_profile_fetch_caching "octocat" emptyUserCache rfl).1
    exampleOkUserResp exampleUserData (by decide) rfl
  exact ⟨h.1, h.2.2⟩

/-- C10: on a 403 or 429 the profile fetch returns `null` without writing a
cache entry, so with the handle still uncached any subsequent call issues a
request again — unlike a 404, which writes a cached `null`. -/
theorem C10_throttle_result_not_cached (u : String) (cache : UserCache) (r : Resp)
    (hmiss : cache u = none) (hst : r.status = 403 ∨ r.status = 429) :
    fetchGitHubUserInfo u true (some r) cache = (none, cache, true) ∧
    (∀ net2, (fetchGitHubUserInfo u true net2 cache).2.2 = true) ∧
    (∀ r2, r2.status = 404 →
      ((fetchGitHubUserInfo u true (some r2) cache).2.1) u = some none) := by
  have hnotok : respOk r = false := by
    rw [respOk]
    rcases hst with h | h <;> rw [h] <;> rfl
  refine ⟨?_, ?_, ?_⟩
  · rcases hst with h | h <;>
      simp [fetchGitHubUserInfo.eq_def, hmiss, hnotok, h]
  · intro net2
    rw [fetchGitHubUserInfo.eq_def, if_neg (by simp [hmiss])]
    cases net2 with
    | none => rfl
    | some r2 =>
      by_cases hok : respOk r2 = true
      · cases hb : r2.userBody with
        | none => simp [hok, hb]
        | some d => simp [hok, hb]
      · rw [Bool.not_eq_true] at hok
        by_cases h404 : r2.status = 404
        · simp [hok, h404]
        · by_cases hth : r2.status = 403 ∨ r2.status = 429
          · simp [hok, h404, hth]
          · simp [hok, h404, hth]
  · intro r2 h404
    have hnotok2 : respOk r2 = false := by
      rw [respOk, h404]
      rfl
    simp [fetchGitHubUserInfo.eq_def, hmiss, hnotok2, h404, cacheInsert]

/-- C10 witness: a concrete 403 on an empty cache is not cached and the next
call still issues a request. -/
theorem C10_throttle_result_not_cached_witness :
    fetchGitHubUserInfo "octocat" true (some (statusResp 403)) emptyUserCache =
      (none, emptyUserCache, true) ∧
    (fetchGitHubUserInfo "octocat" true (some (statusResp 403)) emptyUserCache).2.2 = true := by
  have h := C10_throttle_result_not_cached "octocat" emptyUserCache (statusResp 403)
    rfl (Or.inl rfl)
  exact ⟨h.1, h.2.1 (some (statusResp 403))⟩

/-- C5 counterexample: the user-profile fetch does not consult the credential
configuration at all; with no credential configured (the model carries none)
and a successful unauthenticated 200 response it returns the full profile,
not an empty/default result — refuting "when no credential is configured the
fetcher returns an empty/default result". -/
theorem C5_counterexample_profile_fetch_not_empty :
    (fetchGitHubUserInfo "octocat" true (some exampleOkUserResp) emptyUserCache).1 =
      some (mkUserInfo exampleUserData) ∧
    (fetchGitHubUserInfo "octocat" true (some exampleOkUserResp) emptyUserCache).1 ≠
      none := by
  decide

/-- C5 amended: every fetcher returns its empty/default result, never an
exception, when the remote call fails (a thrown request or a non-OK status on
its primary request); the language-breakdown, commit-list and pull-request
fetchers additionally return an empty result immediately when no credential
is configured, while the profile and repository fetchers issue the request
regardless of credentials and degrade to the default only on failure. -/
theorem C5_fetchers_degrade_amended :
    (∀ u (cache : UserCache), cache u = none →
      fetchGitHubUserInfo u true none cache = (none, cache, true)) ∧
    (∀ u (cache : UserCache) r, cache u = none → respOk r = false →
      (fetchGitHubUserInfo u true (some r) cache).1 = none) ∧
    (∀ (net : Nat → Option Resp) limit, net 1 = none →
      fetchUserRepositories net limit = []) ∧
    (∀ net, fetchUserLanguages false net = []) ∧
    (∀ net, net 0 = none → fetchUserLanguages true net = []) ∧
    (∀ net r, net 0 = some r → respOk r = false → fetchUserLanguages true net = []) ∧
    (∀ net limit, fetchRecentCommits false net limit = []) ∧
    (∀ net limit, net 0 = none → fetchRecentCommits true net limit = []) ∧
    (∀ net limit r, net 0 = some r → respOk r = false →
      fetchRecentCommits true net limit = []) ∧
    (∀ b, fetchUserPullRequests b = []) := by
  refine ⟨?_, ?_, ?_, ?_, ?_, ?_, ?_, ?_, ?_, ?_⟩
  · intro u cache hmiss
    simp [fetchGitHubUserInfo.eq_def, hmiss]
  · intro u cache r hmiss hnotok
    by_cases h404 : r.status = 404
    · simp [fetchGitHubUserInfo.eq_def, hmiss, hnotok, h404]
    · by_cases hth : r.status = 403 ∨ r.status = 429 <;>
        simp [fetchGitHubUserInfo.eq_def, hmiss, hnotok, h404, hth]
  · intro net limit hnet
    rw [fetchUserRepositories, fetchReposLoop.eq_def]
    by_cases hl : (([] : List RepoOut)).length < limit
    · rw [dif_pos hl, hnet]
    · rw [dif_neg hl]
  · intro net
    rfl
  · intro net h0
    simp [fetchUserLanguages, h0]
  · intro net r h0 hnotok
    simp [fetchUserLanguages, h0, hnotok]
  · intro net limit
    rfl
  · intro net limit h0
    simp [fetchRecentCommits, h0]
  · intro net limit r h0 hnotok
    simp [fetchRecentCommits, h0, hnotok]
  · intro b
    cases b <;> rfl

/-- C5 witness: concrete degraded results — a thrown profile request yields
`null`, and a thrown repo-list request yields an empty language breakdown. -/
theorem C5_fetchers_degrade_amended_witness :
    fetchGitHubUserInfo "octocat" true none emptyUserCache =
      (none, emptyUserCache, true) ∧
    fetchUserLanguages true (fun _ => none) = [] :=
  ⟨C5_fetchers_degrade_amended.1 "octocat" emptyUserCache rfl,
   C5_fetchers_degrade_amended.2.2.2.2.1 (fun _ => none) rfl⟩

theorem fetchReposLoop_length_le (net : Nat → Option Resp) (limit : Nat) :
    ∀ (n : Nat) (page : Nat) (acc : List RepoOut), limit - acc.length ≤ n →
      acc.length ≤ limit → (fetchReposLoop net limit page acc).length ≤ limit := by
  intro n
  induction n with
  | zero =>
    intro page acc hle hacc
    rw [fetchReposLoop.eq_def, dif_neg (by omega)]
    exact hacc
  | succ n ih =>
    intro page acc hle hacc
    rw [fetchReposLoop.eq_def]
    split
    · split
      · simp
      · split
        · split
          · simp
          · split
            · exact hacc
            · rename_i hlt response repos hne
              dsimp only
              split
              · apply ih
                · simp only [List.length_append, List.length_map, List.length_take]
                  omega
                · simp only [List.length_append, List.length_map, List.length_take]
                  omega
              · simp only [List.length_append, List.length_map, List.length_take]
                omega
        · split
          · exact hacc
          · split
            · exact hacc
            · simp
    · exact hacc

/-- C4: the repository fetch paginates at page size 100 and never returns more
than `limit` items; with items still wanted it stops on an empty page, on a
throttling status (returning the partial list collected so far), on a page
shorter than the page size (after pushing its items up to `limit`), or on a
`Link` header without a next page; once `limit` is reached it stops. -/
theorem C4_repo_pagination (net : Nat → Option Resp) (limit : Nat) :
    (fetchUserRepositories net limit).length ≤ limit ∧
    (∀ page acc r, acc.length < limit → net page = some r → respOk r = true →
      r.repoBody = some [] → fetchReposLoop net limit page acc = acc) ∧
    (∀ page acc r, acc.length < limit → net page = some r → respOk r = false →
      (r.status = 403 ∨ r.status = 429) → fetchReposLoop net limit page acc = acc) ∧
    (∀ page acc r repos, acc.length < limit → net page = some r → respOk r = true →
      r.repoBody = some repos → repos ≠ [] → repos.length < 100 →
      fetchReposLoop net limit page acc =
        acc ++ (repos.take (limit - acc.length)).map mkRepoOut) ∧
    (∀ page acc r repos, acc.length < limit → net page = some r → respOk r = true →
      r.repoBody = some repos → repos.length = 100 → r.linkNext = some false →
      fetchReposLoop net limit page acc =
        acc ++ (repos.take (limit - acc.length)).map mkRepoOut) ∧
    (∀ page acc, limit ≤ acc.length → fetchReposLoop net limit page acc = acc) := by
  refine ⟨?_, ?_, ?_, ?_, ?_, ?_⟩
  · exact fetchReposLoop_length_le net limit limit 1 [] (by simp) (by simp)
  · intro page acc r hlt hnet hok hbody
    rw [fetchReposLoop.eq_def, dif_pos hlt]
    simp [hnet, hok, hbody]
  · intro page acc r hlt hnet hnotok hst
    rw [fetchReposLoop.eq_def, dif_pos hlt]
    rcases hst with h | h <;> simp [hnet, hnotok, h]
  · intro page acc r repos hlt hnet hok hbody hrne hshort
    have hne0 : ¬(repos.length = 0) := by
      intro h0
      exact hrne (List.length_eq_zero.mp h0)
    have hne100 : ¬(repos.length = 100) := by omega
    rw [fetchReposLoop.eq_def, dif_pos hlt]
    simp [hnet, hok, hbody, hne0, hne100]
  · intro page acc r repos hlt hnet hok hbody hfull hlink
    have hne0 : ¬(repos.length = 0) := by omega
    rw [fetchReposLoop.eq_def, dif_pos hlt]
    simp [hnet, hok, hbody, hne0, hfull, hlink]
  · intro page acc hge
    rw [fetchReposLoop.eq_def, dif_neg (by omega)]

/-- C4 witness: a concrete single short page of one repository with limit 5
terminates after that page with exactly its item. -/
theorem C4_repo_pagination_witness :
    fetchUserRepositories exampleNet 5 = [mkRepoOut exampleRepoItem] := by
  have h := (C4_repo_pagination exampleNet 5).2.2.2.1 1 [] exampleRepoPage
    [exampleRepoItem] (by decide) rfl (by decide) rfl (by decide) (by decide)
  exact h.trans (by decide)

theorem handleRateLimit_throttled (r : Resp) (st : RateLimitState) (now : Nat)
    (h : r.status = 429 ∨ (r.status = 403 ∧ r.remaining = some 0)) :
    ∃ w, (handleRateLimit r st now).2 = some w := by
  simp only [handleRateLimit]
  split
  · exact ⟨_, rfl⟩
  · rename_i hcond
    rcases h with h | ⟨h3, hr⟩
    · exact absurd (Or.inl h) hcond
    · rw [hr] at hcond
      simp at hcond

theorem handleRateLimit_wait_reset (r : Resp) (st : RateLimitState) (now s : Nat)
    (hth : r.status = 429 ∨ (r.status = 403 ∧ r.remaining = some 0))
    (hs : r.reset = some s) (hs0 : s ≠ 0) :
    (handleRateLimit r st now).2 =
      some ((max 0 (((s * 1000 : Nat) : Int) - (now : Int) + 1000)).toNat) := by
  have hs1000 : ¬(s * 1000 = 0) := by omega
  rcases hth with h | ⟨h3, hr⟩
  · simp [handleRateLimit, hs, h, hs1000]
  · simp [handleRateLimit, hs, hr, h3, hs1000]

theorem handleRateLimit_wait_default (r : Resp) (st : RateLimitState) (now : Nat)
    (hth : r.status = 429 ∨ (r.status = 403 ∧ r.remaining = some 0))
    (hr0 : r.reset = none) (hst0 : st.rateLimitReset = none) :
    (handleRateLimit r st now).2 = some 60000 := by
  rcases hth with h | ⟨h3, hr⟩
  · simp [handleRateLimit, hr0, hst0, h]
  · simp [handleRateLimit, hr0, hst0, h3, hr]

theorem githubApiAttempts_not_throttled (fetchResp : Nat → Option Resp)
    (fuel calls : Nat) (st : RateLimitState) (now : Nat) (waits : List Nat) (r : Resp)
    (hf : fetchResp calls = some r) (h429 : ¬(r.status = 429))
    (h403 : ¬(r.status = 403 ∧ r.remaining = some 0)) :
    githubApiAttempts fetchResp (fuel + 1) calls st now waits =
      some (r, st, now, waits) := by
  simp only [githubApiAttempts, hf]
  rw [if_neg h429]
  by_cases h3 : r.status = 403
  · rw [if_pos h3, if_neg (fun hr => h403 ⟨h3, hr⟩)]
  · rw [if_neg h3]

theorem githubApiAttempts_throttled_step (fetchResp : Nat → Option Resp)
    (fuel calls : Nat) (st : RateLimitState) (now : Nat) (waits : List Nat) (r : Resp)
    (hf : fetchResp calls = some r)
    (hth : r.status = 429 ∨ (r.status = 403 ∧ r.remaining = some 0)) :
    githubApiAttempts fetchResp (fuel + 2) calls st now waits =
      githubApiAttempts fetchResp (fuel + 1) (calls + 1) (handleRateLimit r st now).1
        (now + ((handleRateLimit r st now).2.getD 0))
        (waits ++ (handleRateLimit r st now).2.toList) := by
  show githubApiAttempts fetchResp ((fuel + 1) + 1) calls st now waits = _
  simp only [githubApiAttempts, hf]
  rcases hth with h | ⟨h3, hr⟩
  · rw [if_pos h, if_pos (by omega : ¬(fuel + 1 = 0) )]
  · rw [if_neg (by rw [h3]; decide), if_pos h3, if_pos hr,
      if_pos (by omega : ¬(fuel + 1 = 0) )]

theorem githubApiAttempts_last_throttled (fetchResp : Nat → Option Resp)
    (calls : Nat) (st : RateLimitState) (now : Nat) (waits : List Nat) (r : Resp)
    (hf : fetchResp calls = some r)
    (hth : r.status = 429 ∨ (r.status = 403 ∧ r.remaining = some 0)) :
    githubApiAttempts fetchResp 1 calls st now waits =
      some (r, (handleRateLimit r st now).1,
        now + ((handleRateLimit r st now).2.getD 0),
        waits ++ (handleRateLimit r st now).2.toList) := by
  show githubApiAttempts fetchResp (0 + 1) calls st now waits = _
  simp only [githubApiAttempts, hf]
  rcases hth with h | ⟨h3, hr⟩
  · rw [if_pos h, if_neg (by omega : ¬¬(0 = 0) )]
  · rw [if_neg (by rw [h3]; decide), if_pos h3, if_pos hr,
      if_neg (by omega : ¬¬(0 = 0) )]

theorem githubApiAttempts_waits_mono (fetchResp : Nat → Option Resp) :
    ∀ (fuel calls : Nat) (st : RateLimitState) (now : Nat) (waits : List Nat) res,
      githubApiAttempts fetchResp fuel calls st now waits = some res →
      ∃ tail, res.2.2.2 = waits ++ tail := by
  intro fuel
  induction fuel with
  | zero =>
    intro calls st now waits res h
    simp only [githubApiAttempts] at h
    split at h
    · exact absurd h (by simp)
    · rw [Option.some.injEq] at h
      exact ⟨[], by rw [← h]; simp⟩
  | succ fuel ih =>
    intro calls st now waits res h
    simp only [githubApiAttempts] at h
    split at h
    · exact absurd h (by simp)
    · rename_i r _
      split at h
      · split at h
        · obtain ⟨t, ht⟩ := ih _ _ _ _ _ h
          exact ⟨(handleRateLimit r st now).2.toList ++ t, by rw [ht, List.append_assoc]⟩
        · rw [Option.some.injEq] at h
          exact ⟨(handleRateLimit r st now).2.toList, by rw [← h]⟩
      · split at h
        · split at h
          · split at h
            · obtain ⟨t, ht⟩ := ih _ _ _ _ _ h
              exact ⟨(handleRateLimit r st now).2.toList ++ t, by
                rw [ht, List.append_assoc]⟩
            · rw [Option.some.injEq] at h
              exact ⟨(handleRateLimit r st now).2.toList, by rw [← h]⟩
          · rw [Option.some.injEq] at h
            exact ⟨[], by rw [← h]; simp⟩
        · rw [Option.some.injEq] at h
          exact ⟨[], by rw [← h]; simp⟩

theorem githubApiAttempts_isSome (fetchResp : Nat → Option Resp)
    (hall : ∀ i, (fetchResp i).isSome = true) :
    ∀ (fuel calls : Nat) (st : RateLimitState) (now : Nat) (waits : List Nat),
      (githubApiAttempts fetchResp fuel calls st now waits).isSome = true := by
  intro fuel
  induction fuel with
  | zero =>
    intro calls st now waits
    obtain ⟨r, hr⟩ := Option.isSome_iff_exists.mp (hall calls)
    simp [githubApiAttempts, hr]
  | succ fuel ih =>
    intro calls st now waits
    obtain ⟨r, hr⟩ := Option.isSome_iff_exists.mp (hall calls)
    simp only [githubApiAttempts, hr]
    by_cases h429 : r.status = 429
    · by_cases hf0 : fuel = 0
      · simp [h429, hf0]
      · simp [h429, hf0, ih]
    · by_cases h403 : r.status = 403
      · by_cases hrem : r.remaining = some 0
        · by_cases hf0 : fuel = 0
          · simp [h429, h403, hrem, hf0]
          · simp [h429, h403, hrem, hf0, ih]
        · simp [h429, h403, hrem]
      · simp [h429, h403]

/-- C1: `githubApiRequest` with its fixed 3 attempts returns a non-throttled
response immediately (no wait, unchanged rate state), including a 403 without
a zero remaining-quota header; when every attempt is throttled (429, or 403
with remaining "0") it waits between attempts and returns the third (last)
response rather than throwing; each wait is computed from the reset header —
`max 0 (reset·1000 − now + 1000)` ms when a nonzero reset is known, and
60,000 ms when none is known. -/
theorem C1_githubApiRequest_retry_policy (fetchResp : Nat → Option Resp)
    (st : RateLimitState) (now : Nat) :
    (∀ r, fetchResp 0 = some r → ¬(r.status = 429) →
      ¬(r.status = 403 ∧ r.remaining = some 0) →
      githubApiRequest fetchResp 3 st now = some (r, st, now, [])) ∧
    (∀ r0 r1 r2,
      fetchResp 0 = some r0 → fetchResp 1 = some r1 → fetchResp 2 = some r2 →
      (r0.status = 429 ∨ (r0.status = 403 ∧ r0.remaining = some 0)) →
      (r1.status = 429 ∨ (r1.status = 403 ∧ r1.remaining = some 0)) →
      (r2.status = 429 ∨ (r2.status = 403 ∧ r2.remaining = some 0)) →
      ∃ st2 n2 w0 w1 w2,
        githubApiRequest fetchResp 3 st now = some (r2, st2, n2, [w0, w1, w2])) ∧
    (∀ r s, (∀ i, (fetchResp i).isSome = true) → fetchResp 0 = some r →
      (r.status = 429 ∨ (r.status = 403 ∧ r.remaining = some 0)) →
      r.reset = some s → s ≠ 0 →
      ∃ res, githubApiRequest fetchResp 3 st now = some res ∧
        ∃ tail, res.2.2.2 =
          ((max 0 (((s * 1000 : Nat) : Int) - (now : Int) + 1000)).toNat) :: tail) ∧
    (∀ r, (∀ i, (fetchResp i).isSome = true) → fetchResp 0 = some r →
      (r.status = 429 ∨ (r.status = 403 ∧ r.remaining = some 0)) →
      r.reset = none → st.rateLimitReset = none →
      ∃ res, githubApiRequest fetchResp 3 st now = some res ∧
        ∃ tail, res.2.2.2 = 60000 :: tail) := by
  refine ⟨?_, ?_, ?_, ?_⟩
  · intro r hf h429 h403
    rw [githubApiRequest]
    exact githubApiAttempts_not_throttled fetchResp 2 0 st now [] r hf h429 h403
  · intro r0 r1 r2 hf0 hf1 hf2 hth0 hth1 hth2
    obtain ⟨w0, hw0⟩ := handleRateLimit_throttled r0 st now hth0
    obtain ⟨w1, hw1⟩ := handleRateLimit_throttled r1 (handleRateLimit r0 st now).1
      (now + w0) hth1
    obtain ⟨w2, hw2⟩ := handleRateLimit_throttled r2
      (handleRateLimit r1 (handleRateLimit r0 st now).1 (now + w0)).1
      (now + w0 + w1) hth2
    have e1 : githubApiRequest fetchResp 3 st now =
        githubApiAttempts fetchResp 2 1 (handleRateLimit r0 st now).1 (now + w0) [w0] := by
      rw [githubApiRequest]
      have h := githubApiAttempts_throttled_step fetchResp 1 0 st now [] r0 hf0 hth0
      rw [hw0] at h
      simpa using h
    have e2 : githubApiAttempts fetchResp 2 1 (handleRateLimit r0 st now).1
          (now + w0) [w0] =
        githubApiAttempts fetchResp 1 2
          (handleRateLimit r1 (handleRateLimit r0 st now).1 (now + w0)).1
          (now + w0 + w1) [w0, w1] := by
      have h := githubApiAttempts_throttled_step fetchResp 0 1
        (handleRateLimit r0 st now).1 (now + w0) [w0] r1 hf1 hth1
      rw [hw1] at h
      simpa [Nat.add_assoc] using h
    have e3 : githubApiAttempts fetchResp 1 2
          (handleRateLimit r1 (handleRateLimit r0 st now).1 (now + w0)).1
          (now + w0 + w1) [w0, w1] =
        some (r2,
          (handleRateLimit r2
            (handleRateLimit r1 (handleRateLimit r0 st now).1 (now + w0)).1
            (now + w0 + w1)).1,
          now + w0 + w1 + w2, [w0, w1, w2]) := by
      have h := githubApiAttempts_last_throttled fetchResp 2
        (handleRateLimit r1 (handleRateLimit r0 st now).1 (now + w0)).1
        (now + w0 + w1) [w0, w1] r2 hf2 hth2
      rw [hw2] at h
      simpa using h
    exact ⟨_, _, w0, w1, w2, by rw [e1, e2, e3]⟩
  · intro r s hall hf hth hs hs0
    obtain ⟨w0, hw0⟩ := handleRateLimit_throttled r st now hth
    have hwv := handleRateLimit_wait_reset r st now s hth hs hs0
    have hw0v : w0 = (max 0 (((s * 1000 : Nat) : Int) - (now : Int) + 1000)).toNat := by
      rw [hw0] at hwv
      exact Option.some.injEq .. |>.mp hwv
    have e1 : githubApiRequest fetchResp 3 st now =
        githubApiAttempts fetchResp 2 1 (handleRateLimit r st now).1 (now + w0) [w0] := by
      rw [githubApiRequest]
      have h := githubApiAttempts_throttled_step fetchResp 1 0 st now [] r hf hth
      rw [hw0] at h
      simpa using h
    have hsome := githubApiAttempts_isSome fetchResp hall 2 1
      (handleRateLimit r st now).1 (now + w0) [w0]
    obtain ⟨res, hres⟩ := Option.isSome_iff_exists.mp hsome
    obtain ⟨tail, htail⟩ := githubApiAttempts_waits_mono fetchResp 2 1 _ _ [w0] res hres
    refine ⟨res, by rw [e1, hres], tail, ?_⟩
    rw [htail, ← hw0v]
    rfl
  · intro r hall hf hth hr0 hst0
    obtain ⟨w0, hw0⟩ := handleRateLimit_throttled r st now hth
    have hwv := handleRateLimit_wait_default r st now hth hr0 hst0
    have hw0v : w0 = 60000 := by
      rw [hw0] at hwv
      exact Option.some.injEq .. |>.mp hwv
    have e1 : githubApiRequest fetchResp 3 st now =
        githubApiAttempts fetchResp 2 1 (handleRateLimit r st now).1 (now + w0) [w0] := by
      rw [githubApiRequest]
      have h := githubApiAttempts_throttled_step fetchResp 1 0 st now [] r hf hth
      rw [hw0] at h
      simpa using h
    have hsome := githubApiAttempts_isSome fetchResp hall 2 1
      (handleRateLimit r st now).1 (now + w0) [w0]
    obtain ⟨res, hres⟩ := Option.isSome_iff_exists.mp hsome
    obtain ⟨tail, htail⟩ := githubApiAttempts_waits_mono fetchResp 2 1 _ _ [w0] res hres
    refine ⟨res, by rw [e1, hres], tail, ?_⟩
    rw [htail, ← hw0v]
    rfl

/-- C1 witness: a concrete 200 response returns immediately with no waits; a
stream of 429 responses yields the last response after three throttled
attempts with three waits. -/
theorem C1_githubApiRequest_retry_policy_witness :
    githubApiRequest (fun _ => some (statusResp 200)) 3 initialRateLimitState 0 =
      some (statusResp 200, initialRateLimitState, 0, []) ∧
    ∃ st2 n2 w0 w1 w2,
      githubApiRequest (fun _ => some (statusResp 429)) 3 initialRateLimitState 0 =
        some (statusResp 429, st2, n2, [w0, w1, w2]) := by
  have h := C1_githubApiRequest_retry_policy (fun _ => some (statusResp 200))
    initialRateLimitState 0
  have h2 := C1_githubApiRequest_retry_policy (fun _ => some (statusResp 429))
    initialRateLimitState 0
  exact ⟨h.1 (statusResp 200) rfl (by decide) (by decide),
    h2.2.1 (statusResp 429) (statusResp 429) (statusResp 429) rfl rfl rfl
      (Or.inl rfl) (Or.inl rfl) (Or.inl rfl)⟩

/-- C9 counterexample: `getTopPRCreators` does not filter to members with a
defined ranked field — a member with the defined value `pullRequests = 0`
(and no other PR counts) is excluded, while a member with `pullRequests`
undefined but `mergedPRs = 3` is included, with ranked value 0. -/
theorem C9_counterexample_truthy_pr_filter :
    getTopPRCreators [examplePRZeroMember] = [] ∧
    getTopPRCreators [exampleMergedOnlyMember] =
      [{ name := "Unknown", prs := 0, merged := 3, openPRs := 0, closedPRs := 0 }] := by
  decide
